import Mathlib

/-!
Verification of `src/components/1_chapter_automata.py`.

The module defines two finite automata:
* `WeatherAutomaton`, over states {SUNNY, CLOUDY, RAINY} and inputs
  {HIGH_PRESSURE, LOW_PRESSURE, HUMIDITY}, with a four-entry transition
  table, plus a pure predicate `predict_rain`;
* `DFA`, over states {q0, q1, q2} and alphabet {a, b}, recognizing
  strings that end in "ab".

Python dictionaries become association lists with `List.lookup`; the
mutable cursor `self.current_state` becomes an explicit state argument,
and methods that mutate it return the new cursor.
-/

/-- The `WeatherState` enum of the source: SUNNY, CLOUDY, RAINY. -/
inductive WeatherState where
  | SUNNY
  | CLOUDY
  | RAINY
deriving DecidableEq, Repr, Fintype

/-- The `WeatherInput` enum of the source: HIGH_PRESSURE, LOW_PRESSURE, HUMIDITY. -/
inductive WeatherInput where
  | HIGH_PRESSURE
  | LOW_PRESSURE
  | HUMIDITY
deriving DecidableEq, Repr, Fintype

namespace WeatherAutomaton

/-- `self.states = set(WeatherState)`: the declared state set. -/
def states : List WeatherState :=
  [.SUNNY, .CLOUDY, .RAINY]

/-- `self.inputs = set(WeatherInput)`: the declared input set. -/
def inputs : List WeatherInput :=
  [.HIGH_PRESSURE, .LOW_PRESSURE, .HUMIDITY]

/-- `self.current_state = WeatherState.SUNNY`: the cursor value at construction. -/
def initial_state : WeatherState := .SUNNY

/-- The `self.transitions` dictionary, as an association list in source order. -/
def transitions : List ((WeatherState × WeatherInput) × WeatherState) :=
  [((.SUNNY, .LOW_PRESSURE), .CLOUDY),
   ((.CLOUDY, .HUMIDITY), .RAINY),
   ((.RAINY, .HIGH_PRESSURE), .CLOUDY),
   ((.CLOUDY, .HIGH_PRESSURE), .SUNNY)]

/-- `WeatherAutomaton.transition`: if `(current_state, input_symbol)` is a key of
`self.transitions`, the cursor moves to the mapped state, otherwise it is left
unchanged; the (new) cursor is returned. -/
def transition (current_state : WeatherState) (input_symbol : WeatherInput) : WeatherState :=
  match transitions.lookup (current_state, input_symbol) with
  | some s => s
  | none => current_state

/-- Applying `transition` once per element of a sequence, in order
(the loop a caller would write around the method). -/
def run (current_state : WeatherState) (seq : List WeatherInput) : WeatherState :=
  seq.foldl transition current_state

/-- `WeatherAutomaton.predict_rain`: true iff HUMIDITY is in `inputs`
and LOW_PRESSURE is in `inputs`. -/
def predict_rain (inputs : List WeatherInput) : Bool :=
  inputs.contains .HUMIDITY && inputs.contains .LOW_PRESSURE

/-- `predict_rain` viewed as a method call on an automaton whose cursor holds
`current_state`: the body reads only the `inputs` argument, so the call returns
the predicate value and leaves the cursor where it was. -/
def predict_rain_call (current_state : WeatherState) (inputs : List WeatherInput) :
    Bool × WeatherState :=
  (predict_rain inputs, current_state)

end WeatherAutomaton

/-- The DFA states `{q0, q1, q2}` of the source (Python strings). -/
inductive DFAState where
  | q0
  | q1
  | q2
deriving DecidableEq, Repr, Fintype

namespace DFA

/-- `self.states = {q0, q1, q2}`. -/
def states : List DFAState :=
  [.q0, .q1, .q2]

/-- `self.alphabet = {a, b}`. -/
def alphabet : List Char :=
  ['a', 'b']

/-- `self.start_state = q0`. -/
def start_state : DFAState := .q0

/-- `self.final_states = {q2}`. -/
def final_states : List DFAState :=
  [.q2]

/-- The `self.transitions` dictionary, as an association list in source order. -/
def transitions : List ((DFAState × Char) × DFAState) :=
  [((.q0, 'a'), .q1),
   ((.q0, 'b'), .q0),
   ((.q1, 'a'), .q1),
   ((.q1, 'b'), .q2),
   ((.q2, 'a'), .q1),
   ((.q2, 'b'), .q0)]

/-- `DFA.transition`: if `(current_state, symbol)` is a key of `self.transitions`,
the cursor moves to the mapped state, otherwise it is left unchanged; the (new)
cursor is returned. -/
def transition (current_state : DFAState) (symbol : Char) : DFAState :=
  match transitions.lookup (current_state, symbol) with
  | some s => s
  | none => current_state

/-- The loop body of `process_string`, starting from cursor `s`: for each symbol
in order, return `(false, s)` as soon as a symbol outside the alphabet is met
(the rest of the string is not consumed), otherwise step via `transition`; when
the whole string is consumed, accept iff the cursor is a final state. The second
component is the cursor after the call. -/
def processAux (s : DFAState) : List Char → Bool × DFAState
  | [] => (final_states.contains s, s)
  | c :: rest =>
      if c ∈ alphabet then processAux (transition s c) rest
      else (false, s)

/-- `DFA.process_string`: the cursor is first reset to `start_state`
unconditionally (so the `current_state` the automaton held before the call is
ignored), then the string is consumed by the loop of `processAux`. -/
def process_string (current_state : DFAState) (input_string : List Char) : Bool × DFAState :=
  processAux start_state input_string

/-- Pure left-to-right run of `transition` (no alphabet check, no reset). -/
def run (s : DFAState) (l : List Char) : DFAState :=
  l.foldl transition s

end DFA

namespace DFA

/-- Membership in the two-letter alphabet, spelled out. -/
lemma mem_alphabet_iff {c : Char} : c ∈ alphabet ↔ c = 'a' ∨ c = 'b' := by
  simp [alphabet]

/-- Every state steps to `q1` on the symbol a. -/
lemma transition_a (s : DFAState) : transition s 'a' = .q1 := by
  cases s <;> rfl

/-- Specification helper: the state reached from `q0` after reading a word over
{a, b} whose reversal is the argument: `q1` if the word ends in a, `q2` if it
ends in "ab", `q0` otherwise. -/
def stateOfRev : List Char → DFAState
  | [] => .q0
  | c :: rest =>
      if c = 'a' then .q1
      else if c = 'b' then
        match rest with
        | [] => .q0
        | d :: _ => if d = 'a' then .q2 else .q0
      else .q0

/-- One step of `transition` matches prepending the symbol to the reversed word. -/
lemma stateOfRev_cons (c : Char) (r : List Char) (hc : c ∈ alphabet)
    (hr : ∀ d ∈ r, d ∈ alphabet) :
    stateOfRev (c :: r) = transition (stateOfRev r) c := by
  rcases mem_alphabet_iff.mp hc with rfl | rfl
  · simp [stateOfRev, transition_a]
  · cases r with
    | nil => rfl
    | cons d t =>
      rcases mem_alphabet_iff.mp (hr d (by simp)) with rfl | rfl
      · simp [stateOfRev]; decide
      · cases t with
        | nil => rfl
        | cons e t' =>
          by_cases he : e = 'a' <;> simp [stateOfRev, he] <;> rfl

/-- Running the DFA from the start state over a word of alphabet symbols lands
in the state predicted by `stateOfRev` of the reversed word. -/
lemma run_eq_stateOfRev (l : List Char) (h : ∀ c ∈ l, c ∈ alphabet) :
    run start_state l = stateOfRev l.reverse := by
  induction l using List.reverseRecOn with
  | nil => rfl
  | append_singleton l c ih =>
    have hc : c ∈ alphabet := h c (by simp)
    have hl : ∀ d ∈ l, d ∈ alphabet := fun d hd => h d (by simp [hd])
    have hrev : ∀ d ∈ l.reverse, d ∈ alphabet := by simpa using hl
    have hstep : run start_state (l ++ [c]) = transition (run start_state l) c := by
      simp [run]
    rw [hstep, ih hl, List.reverse_append]
    simpa using (stateOfRev_cons c l.reverse hc hrev).symm

/-- On a word made only of alphabet symbols, the `process_string` loop never
takes its rejection branch: it returns the acceptance test of the plain run,
and the run itself as the new cursor. -/
lemma processAux_clean (s : DFAState) (l : List Char) (h : ∀ c ∈ l, c ∈ alphabet) :
    processAux s l = (final_states.contains (run s l), run s l) := by
  induction l generalizing s with
  | nil => rfl
  | cons c rest ih =>
    have hc : c ∈ alphabet := h c (by simp)
    have hrest : ∀ d ∈ rest, d ∈ alphabet := fun d hd => h d (by simp [hd])
    simp only [processAux, if_pos hc, ih _ hrest]
    rfl

/-- The acceptance test singles out `q2`. -/
lemma contains_final_iff (s : DFAState) : final_states.contains s = true ↔ s = .q2 := by
  cases s <;> simp [final_states]

/-- `stateOfRev` yields `q2` exactly on reversed words that start with "ba". -/
lemma stateOfRev_eq_q2_iff : ∀ r : List Char, stateOfRev r = .q2 ↔ ∃ t, r = 'b' :: 'a' :: t
  | [] => by simp [stateOfRev]
  | [c] => by
      constructor
      · intro h
        by_cases hc : c = 'a' <;> by_cases hc' : c = 'b' <;>
          simp [stateOfRev, hc, hc'] at h
      · rintro ⟨t, ht⟩
        simp at ht
  | c :: d :: t => by
      by_cases hca : c = 'a'
      · subst hca; simp [stateOfRev]
      · by_cases hcb : c = 'b'
        · subst hcb
          by_cases hd : d = 'a'
          · subst hd; simp [stateOfRev]
          · simp [stateOfRev, hd]
        · simp [stateOfRev, hca, hcb]

/-- A word ends in "ab" iff its reversal starts with "ba". -/
lemma endsWith_ab_iff_reverse (l : List Char) :
    (∃ p, l = p ++ ['a', 'b']) ↔ ∃ t, l.reverse = 'b' :: 'a' :: t := by
  constructor
  · rintro ⟨p, rfl⟩
    exact ⟨p.reverse, by simp⟩
  · rintro ⟨t, ht⟩
    refine ⟨t.reverse, ?_⟩
    have h2 := congrArg List.reverse ht
    simpa using h2

end DFA

namespace DFA

/-- If some symbol of the input lies outside the alphabet, the loop returns
false whatever cursor it starts from. -/
lemma processAux_false_of_invalid (s : DFAState) (l : List Char)
    (h : ∃ c ∈ l, c ∉ alphabet) : (processAux s l).1 = false := by
  induction l generalizing s with
  | nil => simp at h
  | cons d t ih =>
    by_cases hd : d ∈ alphabet
    · obtain ⟨c, hc, hca⟩ := h
      rcases List.mem_cons.mp hc with rfl | hc
      · exact absurd hd hca
      · simp only [processAux, if_pos hd]
        exact ih _ ⟨c, hc, hca⟩
    · simp [processAux, hd]

/-- Once an out-of-alphabet symbol is reached, the loop stops there: the
symbols after it play no role in the result or the final cursor. -/
lemma processAux_stops (s : DFAState) (pre : List Char) (c : Char)
    (hc : c ∉ alphabet) (rest rest' : List Char) :
    processAux s (pre ++ c :: rest) = processAux s (pre ++ c :: rest') := by
  induction pre generalizing s with
  | nil => simp [processAux, hc]
  | cons d t ih =>
    by_cases hd : d ∈ alphabet
    · simp only [List.cons_append, processAux, if_pos hd]
      exact ih _
    · simp [processAux, hd]

/-- Every DFA state is in the declared state set. -/
lemma dfaState_mem_states (s : DFAState) : s ∈ states := by
  cases s <;> decide

end DFA

/-- Every weather state is in the declared state set. -/
lemma weatherState_mem_states (s : WeatherState) : s ∈ WeatherAutomaton.states := by
  cases s <;> decide

/-- C1: for every string over the alphabet {a, b}, `DFA.process_string` returns
true iff the string ends with the two-character substring "ab". -/
theorem process_string_true_iff_endsWith_ab (cur : DFAState) (l : List Char)
    (h : ∀ c ∈ l, c ∈ DFA.alphabet) :
    (DFA.process_string cur l).1 = true ↔ ∃ p, l = p ++ ['a', 'b'] := by
  show (DFA.processAux DFA.start_state l).1 = true ↔ _
  rw [DFA.processAux_clean _ _ h]
  rw [show (DFA.final_states.contains (DFA.run DFA.start_state l),
        DFA.run DFA.start_state l).1 = DFA.final_states.contains
        (DFA.run DFA.start_state l) from rfl]
  rw [DFA.contains_final_iff, DFA.run_eq_stateOfRev l h, DFA.stateOfRev_eq_q2_iff,
    DFA.endsWith_ab_iff_reverse]

/-- Witness for C1 at the concrete input "ab". -/
theorem process_string_true_iff_endsWith_ab_witness :
    (DFA.process_string .q0 ['a', 'b']).1 = true ↔ ∃ p, ['a', 'b'] = p ++ ['a', 'b'] :=
  process_string_true_iff_endsWith_ab .q0 ['a', 'b'] (by decide)

/-- C2: for a (state, symbol) pair absent from the transition table, both
`WeatherAutomaton.transition` and `DFA.transition` leave the cursor unchanged
and return it; no error path exists. -/
theorem transition_noop_when_undefined :
    (∀ (s : WeatherState) (i : WeatherInput),
        WeatherAutomaton.transitions.lookup (s, i) = none →
          WeatherAutomaton.transition s i = s) ∧
    (∀ (s : DFAState) (i : Char),
        DFA.transitions.lookup (s, i) = none → DFA.transition s i = s) := by
  constructor
  · intro s i h
    simp [WeatherAutomaton.transition, h]
  · intro s i h
    simp [DFA.transition, h]

/-- Witness for C2 at (SUNNY, HUMIDITY) and at (q0, x). -/
theorem transition_noop_when_undefined_witness :
    WeatherAutomaton.transition .SUNNY .HUMIDITY = .SUNNY ∧
    DFA.transition .q0 'x' = .q0 :=
  ⟨transition_noop_when_undefined.1 .SUNNY .HUMIDITY (by decide),
   transition_noop_when_undefined.2 .q0 'x' (by decide)⟩

/-- C3: any input with a symbol outside {a, b} is rejected (false, no
exception); the loop stops at the first such symbol, so the remainder of the
string is never consumed; in particular "xab" is rejected although it ends in
"ab". -/
theorem process_string_rejects_out_of_alphabet :
    (∀ (cur : DFAState) (l : List Char),
        (∃ c ∈ l, c ∉ DFA.alphabet) → (DFA.process_string cur l).1 = false) ∧
    (∀ (cur : DFAState) (pre : List Char) (c : Char), c ∉ DFA.alphabet →
        ∀ rest rest' : List Char,
          DFA.process_string cur (pre ++ c :: rest) =
            DFA.process_string cur (pre ++ c :: rest')) ∧
    (DFA.process_string .q0 ['x', 'a', 'b']).1 = false := by
  refine ⟨?_, ?_, by decide⟩
  · intro cur l h
    exact DFA.processAux_false_of_invalid _ l h
  · intro cur pre c hc rest rest'
    exact DFA.processAux_stops _ pre c hc rest rest'

/-- Witness for C3: "ax" is rejected, and the symbols after the invalid x do
not change the outcome. -/
theorem process_string_rejects_out_of_alphabet_witness :
    (DFA.process_string .q0 ['a', 'x']).1 = false ∧
    DFA.process_string .q0 ['a', 'x', 'a'] = DFA.process_string .q0 ['a', 'x', 'b'] :=
  ⟨process_string_rejects_out_of_alphabet.1 .q0 ['a', 'x'] ⟨'x', by decide, by decide⟩,
   process_string_rejects_out_of_alphabet.2.1 .q0 ['a'] 'x' (by decide) ['a'] ['b']⟩

/-- C4: `predict_rain` is true exactly when the sequence contains at least one
HUMIDITY and at least one LOW_PRESSURE, whatever order, position or
repetition; with the three concrete examples of the spec. -/
theorem predict_rain_iff_humidity_and_low_pressure :
    (∀ l : List WeatherInput,
        WeatherAutomaton.predict_rain l = true ↔
          WeatherInput.HUMIDITY ∈ l ∧ WeatherInput.LOW_PRESSURE ∈ l) ∧
    WeatherAutomaton.predict_rain [.HUMIDITY, .HIGH_PRESSURE] = false ∧
    WeatherAutomaton.predict_rain [.LOW_PRESSURE, .HUMIDITY] = true ∧
    WeatherAutomaton.predict_rain [] = false := by
  refine ⟨?_, by decide, by decide, by decide⟩
  intro l
  simp [WeatherAutomaton.predict_rain]

/-- C5: from SUNNY, [LOW_PRESSURE, HUMIDITY] drives the cursor to RAINY and
[LOW_PRESSURE, HUMIDITY, HIGH_PRESSURE] to CLOUDY; the first table entry maps
(SUNNY, LOW_PRESSURE) to CLOUDY. -/
theorem weather_run_examples :
    WeatherAutomaton.run .SUNNY [.LOW_PRESSURE, .HUMIDITY] = .RAINY ∧
    WeatherAutomaton.run .SUNNY [.LOW_PRESSURE, .HUMIDITY, .HIGH_PRESSURE] = .CLOUDY ∧
    WeatherAutomaton.transitions.head? =
      some ((.SUNNY, .LOW_PRESSURE), .CLOUDY) := by
  refine ⟨by decide, by decide, rfl⟩

/-- C6: `process_string` resets the cursor to the start state before reading,
so its entire result, and in particular the boolean, is independent of the
cursor the automaton held before the call: repeated calls agree. -/
theorem process_string_independent_of_cursor :
    ∀ (cur cur' : DFAState) (l : List Char),
      DFA.process_string cur l = DFA.process_string cur' l ∧
      DFA.process_string cur l = DFA.processAux DFA.start_state l :=
  fun _ _ _ => ⟨rfl, rfl⟩

/-- C7: the start states lie in the declared state sets, every state in the
range of either transition table lies in the declared state set, and the
cursor after any `transition` or `process_string` call is in the declared
state set. -/
theorem cursor_always_in_states :
    (WeatherAutomaton.initial_state ∈ WeatherAutomaton.states ∧
      DFA.start_state ∈ DFA.states) ∧
    (∀ (s : WeatherState) (i : WeatherInput),
        WeatherAutomaton.transition s i ∈ WeatherAutomaton.states) ∧
    (∀ (s : DFAState) (c : Char), DFA.transition s c ∈ DFA.states) ∧
    (∀ p ∈ WeatherAutomaton.transitions, p.2 ∈ WeatherAutomaton.states) ∧
    (∀ p ∈ DFA.transitions, p.2 ∈ DFA.states) ∧
    (∀ (cur : DFAState) (l : List Char),
        (DFA.process_string cur l).2 ∈ DFA.states) :=
  ⟨⟨by decide, by decide⟩,
   fun s i => weatherState_mem_states _,
   fun s c => DFA.dfaState_mem_states _,
   fun p _ => weatherState_mem_states _,
   fun p _ => DFA.dfaState_mem_states _,
   fun cur l => DFA.dfaState_mem_states _⟩

/-- Witness for C7 at the first entries of both tables. -/
theorem cursor_always_in_states_witness :
    (((WeatherState.SUNNY, WeatherInput.LOW_PRESSURE), WeatherState.CLOUDY) :
        (WeatherState × WeatherInput) × WeatherState).2 ∈ WeatherAutomaton.states ∧
    (((DFAState.q0, 'a'), DFAState.q1) : (DFAState × Char) × DFAState).2 ∈ DFA.states :=
  ⟨cursor_always_in_states.2.2.2.1 _ (by decide),
   cursor_always_in_states.2.2.2.2.1 _ (by decide)⟩

/-- C8: `predict_rain` neither reads nor writes the cursor: its boolean result
is the same for any two cursor values, and the cursor is unchanged after the
call. -/
theorem predict_rain_ignores_cursor :
    ∀ (cur cur' : WeatherState) (l : List WeatherInput),
      (WeatherAutomaton.predict_rain_call cur l).1 =
        (WeatherAutomaton.predict_rain_call cur' l).1 ∧
      (WeatherAutomaton.predict_rain_call cur l).2 = cur :=
  fun _ _ _ => ⟨rfl, rfl⟩

/-- C9: the empty string and every one-character string are rejected; indeed
no single alphabet symbol takes the start state to the accepting state q2. -/
theorem process_string_rejects_short :
    (∀ cur : DFAState, (DFA.process_string cur []).1 = false) ∧
    (∀ (cur : DFAState) (c : Char), (DFA.process_string cur [c]).1 = false) ∧
    (∀ c ∈ DFA.alphabet, DFA.run DFA.start_state [c] ≠ .q2) := by
  refine ⟨fun cur => rfl, ?_, by decide⟩
  intro cur c
  show (DFA.processAux DFA.start_state [c]).1 = false
  by_cases hc : c ∈ DFA.alphabet
  · rcases DFA.mem_alphabet_iff.mp hc with rfl | rfl <;> decide
  · simp [DFA.processAux, hc]

/-- Witness for C9 on the single symbol a. -/
theorem process_string_rejects_short_witness :
    DFA.run DFA.start_state ['a'] ≠ .q2 :=
  process_string_rejects_short.2.2 'a' (by decide)

/-- C10: the transition table has pairwise distinct keys and defines a
successor for every pair in {q0, q1, q2} × {a, b}; hence on alphabet symbols
`DFA.transition` always takes the lookup branch, returning the table value,
and the no-op branch is never taken. -/
theorem dfa_transitions_total :
    (DFA.transitions.map Prod.fst).Nodup ∧
    (∀ (s : DFAState), ∀ c ∈ DFA.alphabet,
        (DFA.transitions.lookup (s, c)).isSome = true) ∧
    (∀ (s : DFAState), ∀ c ∈ DFA.alphabet,
        DFA.transitions.lookup (s, c) = some (DFA.transition s c)) := by
  refine ⟨by decide, by decide, by decide⟩

/-- Witness for C10 at (q0, a). -/
theorem dfa_transitions_total_witness :
    (DFA.transitions.lookup (DFAState.q0, 'a')).isSome = true ∧
    DFA.transitions.lookup (DFAState.q0, 'a') = some (DFA.transition .q0 'a') :=
  ⟨dfa_transitions_total.2.1 .q0 'a' (by decide),
   dfa_transitions_total.2.2 .q0 'a' (by decide)⟩
